import Mathlib

/-!
Verification of the ai-prompter library (src/src/index.ts).

The development shallowly embeds the two builders of the library:

* the Block Composer (source class MessageBuilder): an ordered sequence of
  parts, each a scalar or a nested composer, rendered with indentation and
  with template substitution of double-brace placeholders;
* the Turn Sequencer (source class PromptBuilder): an ordered sequence of
  role-tagged turns with optional placeholder and metadata, producing a
  flat list of messages (build) or a partitioned context/messages shape
  (buildForAssistant).

JavaScript mutable state is embedded by explicit state passing: a build
call returns both the rendered string and the mutated structure (the
source overwrites each child composer argument mapping in place during a
render).  The mutable process-wide default indentation (static field
MessageBuilder.indent) is threaded as an explicit parameter named g.
-/

namespace AiPrompter

/-- Newline character, the separator used by the source throughout. -/
def nlChar : Char := '\n'

/-- Left curly brace, written via its code point. -/
def braceL : Char := Char.ofNat 123

/-- Right curly brace, written via its code point. -/
def braceR : Char := Char.ofNat 125

/-- Join a list of strings with newline separators, as parts.join in the
source.  Equals String.intercalate with a newline but stated recursively
so that proofs can proceed by structural induction. -/
def joinNl : List String → String
  | [] => ""
  | [s] => s
  | s :: r :: rest => s ++ String.mk [nlChar] ++ joinNl (r :: rest)

/-- Split a character list at every newline, as the JavaScript
String.prototype.split with separator a newline: the empty text yields one
empty piece, a trailing newline yields a trailing empty piece. -/
def splitNlChars : List Char → List (List Char)
  | [] => [[]]
  | c :: rest =>
    match splitNlChars rest with
    | [] => [[c]]
    | h :: t => if c = nlChar then [] :: h :: t else (c :: h) :: t

/-- The lines of a string, in the sense of the JavaScript split on a
newline used by the source build. -/
def linesOf (s : String) : List String :=
  (splitNlChars s.data).map String.mk

/-- Source build, withIntent branch: str.split by newline, each line
prefixed with the effective indentation, joined back. -/
def indentLines (int : String) (s : String) : String :=
  joinNl ((linesOf s).map (fun l => int ++ l))

/-- A string repeated a number of times (used to state the once-per-depth
indentation property). -/
def repeatStr (s : String) (n : Nat) : String :=
  match n with
  | 0 => ""
  | n + 1 => s ++ repeatStr s n

/-- Scalar JavaScript values that can appear as message inputs:
string, number or boolean.  Numbers are embedded as integers. -/
inductive Scalar where
  | s (v : String)
  | n (v : Int)
  | b (v : Bool)
deriving DecidableEq

/-- String coercion of a scalar, as the JavaScript template literal
interpolation of a string, number or boolean. -/
def Scalar.toStr : Scalar → String
  | .s v => v
  | .n v => toString v
  | .b v => toString v

/-- A template-argument value: a scalar, or a structured value.  A
structured value is represented by its JSON serialization, because the
source only ever observes it through JSON.stringify
(function _stringifyValue). -/
inductive Value where
  | scalar (v : Scalar)
  | json (serialized : String)
deriving DecidableEq

/-- Source _stringifyValue composed with string coercion: structured
values become their JSON text, scalars their usual string form. -/
def stringifyValue : Value → String
  | .scalar v => v.toStr
  | .json s => s

/-- An argument mapping, source type Record of string keys.  Only lookups
are ever observable, through template substitution. -/
abbrev Args := List (String × Value)

/-- Lookup of a template-argument name, first binding wins (JavaScript
object keys are unique, so the first binding is the binding). -/
def lookupArg : Args → String → Option Value
  | [], _ => none
  | (k, v) :: rest, name => if k = name then some v else lookupArg rest name

/-- Source object spread of a parent mapping under a child mapping,
child keys winning: Args of the child after the in-place overwrite
performed by build.  Only lookups are observable, and lookups in this
list agree with the JavaScript spread. -/
def mergeArgs (parent child : Args) : Args :=
  parent.filter (fun kv => (lookupArg child kv.1).isNone) ++ child

/-- The diagnostic emitted by _buildTemplate for an unresolved template
variable (console.warn side channel). -/
def warnMsg (name : String) : String :=
  "Template argument \"" ++ name ++ "\" not found in args"

/-- The property names of Object.prototype (the ECMAScript core methods
plus the Annex B legacy accessors present in Node).  The source checks
template names with the JavaScript in operator, which consults the
prototype chain, so every one of these names is reported as present on
any plain argument object, even an empty one. -/
def protoPropNames : List String :=
  ["constructor", "hasOwnProperty", "isPrototypeOf", "propertyIsEnumerable",
   "toLocaleString", "toString", "valueOf",
   "__defineGetter__", "__defineSetter__", "__lookupGetter__",
   "__lookupSetter__", "__proto__"]

/-- The text substituted for a template name that is not an own key but
is inherited from Object.prototype.  Reading args[name] then yields the
inherited member: for the accessor proto property it is the prototype
object itself, serialized by JSON.stringify (inside _stringifyValue) to
the empty object literal; every other member is a function, which
_stringifyValue passes through (typeof is function, not object) and the
replace callback coerces to its source text, shown here as Node renders
it. -/
def protoPropStr (name : String) : String :=
  if name = "__proto__" then "\x7b\x7d"
  else "function " ++ name ++ "() \x7b [native code] \x7d"

/-- The character class of the regex capture: any character other than
a right brace. -/
def notBraceR (c : Char) : Bool := c ≠ braceR

/-- Faithful embedding of the source regex replace over double-brace
placeholders.  The regex matches two left braces, one or more characters
other than a right brace, then two right braces.  On a match the source
checks the captured name with the JavaScript in operator, which consults
the prototype chain: an own key of the mapping substitutes its value; a
name inherited from Object.prototype substitutes the coerced inherited
member, with no warning; only a name that is neither keeps the matched
text and records a warning.  At a position with no match one character
is emitted and scanning resumes at the next position.  The Nat argument
is fuel; every step consumes at least one character, so fuel equal to
the length of the input suffices (buildTemplateRun). -/
def scanTemplate (args : Args) : Nat → List Char → List Char × List String
  | 0, l => (l, [])
  | _ + 1, [] => ([], [])
  | fuel + 1, c1 :: rest =>
    if c1 = braceL then
      match rest with
      | [] => ([c1], [])
      | c2 :: rest2 =>
        if c2 = braceL then
          let run := rest2.takeWhile notBraceR
          match rest2.dropWhile notBraceR with
          | r1 :: r2 :: after2 =>
            if run ≠ [] ∧ r1 = braceR ∧ r2 = braceR then
              let name := String.mk run
              match lookupArg args name with
              | some v =>
                ((stringifyValue v).data ++ (scanTemplate args fuel after2).1,
                 (scanTemplate args fuel after2).2)
              | none =>
                if name ∈ protoPropNames then
                  ((protoPropStr name).data ++ (scanTemplate args fuel after2).1,
                   (scanTemplate args fuel after2).2)
                else
                  (braceL :: braceL :: run ++ braceR :: braceR ::
                     (scanTemplate args fuel after2).1,
                   warnMsg name :: (scanTemplate args fuel after2).2)
            else
              (c1 :: (scanTemplate args fuel (c2 :: rest2)).1,
               (scanTemplate args fuel (c2 :: rest2)).2)
          | _ =>
            (c1 :: (scanTemplate args fuel (c2 :: rest2)).1,
             (scanTemplate args fuel (c2 :: rest2)).2)
        else
          (c1 :: (scanTemplate args fuel (c2 :: rest2)).1,
           (scanTemplate args fuel (c2 :: rest2)).2)
    else
      (c1 :: (scanTemplate args fuel rest).1,
       (scanTemplate args fuel rest).2)

/-- Source _buildTemplate together with its console.warn side channel:
the substituted text and the ordered list of warnings. -/
def buildTemplateRun (template : String) (args : Args) : String × List String :=
  (String.mk (scanTemplate args template.data.length template.data).1,
   (scanTemplate args template.data.length template.data).2)

/-- Source _buildTemplate, output only. -/
def buildTemplate (template : String) (args : Args) : String :=
  (buildTemplateRun template args).1

mutual
/-- Source class MessageBuilder: a per-instance indentation override, an
argument mapping, and the ordered parts. -/
inductive MessageBuilder where
  | mk (customIndent : Option String) (args : Args) (parts : Parts)

/-- The ordered part sequence of a composer.  The source stores an array
whose entries are scalars or nested composers; the sequence is inlined
here so that all recursion stays structural. -/
inductive Parts where
  | nil
  | consScalar (v : Scalar) (rest : Parts)
  | consChild (c : MessageBuilder) (rest : Parts)
end

/-- Argument mapping of a composer. -/
def MessageBuilder.args : MessageBuilder → Args
  | .mk _ a _ => a

/-- Part sequence of a composer. -/
def MessageBuilder.parts : MessageBuilder → Parts
  | .mk _ _ p => p

/-- Per-instance indentation override of a composer. -/
def MessageBuilder.customIndent : MessageBuilder → Option String
  | .mk ci _ _ => ci

/-- Concatenation of part sequences (array push appends at the end). -/
def Parts.append : Parts → Parts → Parts
  | .nil, q => q
  | .consScalar v r, q => .consScalar v (r.append q)
  | .consChild c r, q => .consChild c (r.append q)

/-- Number of parts. -/
def Parts.len : Parts → Nat
  | .nil => 0
  | .consScalar _ r => r.len + 1
  | .consChild _ r => r.len + 1

/-- A part sequence of scalars, in order. -/
def Parts.ofScalars : List Scalar → Parts
  | [] => .nil
  | v :: rest => .consScalar v (Parts.ofScalars rest)

/-- Number of parts of a composer. -/
def MessageBuilder.partsLen (m : MessageBuilder) : Nat := m.parts.len

/-- Source helper msg with an undefined initial value: a fresh composer
with no custom indentation, the given argument mapping, and no parts. -/
def msgNew (args : Args) : MessageBuilder := .mk none args .nil

mutual
/-- Rendering of a part sequence under a fixed argument mapping and a
fixed effective indentation: the list of rendered part strings, together
with the part sequence after the in-place argument overwrites performed
by the render.  Mirrors the body of the source build: a scalar part is
template substituted; a child part has its argument mapping overwritten
with the parent-merged mapping, then is rendered with indentation forced
on and the same indentation string propagated. -/
def goParts (args : Args) (int : String) : Parts → List String × Parts
  | .nil => ([], .nil)
  | .consScalar v rest =>
    (buildTemplate v.toStr args :: (goParts args int rest).1,
     .consScalar v (goParts args int rest).2)
  | .consChild c rest =>
    ((goChild args int c).1 :: (goParts args int rest).1,
     .consChild (goChild args int c).2 (goParts args int rest).2)

/-- Rendering of one child composer part: the argument mapping is
overwritten with the parent-merged mapping, the parts are rendered, and
because the enclosing call passes withIntent true, every part string has
each of its lines prefixed with the propagated indentation. -/
def goChild (args : Args) (int : String) : MessageBuilder → String × MessageBuilder
  | .mk cci cargs cparts =>
    (joinNl (((goParts (mergeArgs args cargs) int cparts).1).map (indentLines int)),
     .mk cci (mergeArgs args cargs) (goParts (mergeArgs args cargs) int cparts).2)
end

/-- Source MessageBuilder.build.  The first argument mirrors the source
parameter withIntent, the second the explicit indent override, and g is
the process-wide default indentation (static MessageBuilder.indent).
Returns the rendered string together with the composer after the
argument-mapping overwrites. -/
def buildMB (mb : MessageBuilder) (withIntent : Bool) (indentArg : Option String)
    (g : String) : String × MessageBuilder :=
  match mb with
  | .mk ci args parts =>
    let int := indentArg.getD (ci.getD g)
    (joinNl (if withIntent then ((goParts args int parts).1).map (indentLines int)
             else (goParts args int parts).1),
     .mk ci args (goParts args int parts).2)

/-- An input to an add or message method, source type
MessageInput or a builder callback.  A synchronous callback is a function
populating a fresh child composer; the Bool field records whether the
source text of the function contains the word async, which the source
heuristic isAsyncFunction inspects.  An asynchronous callback is split
into the part of its body that runs synchronously up to the first await
(runSync) and the remainder that runs after the awaited work settles
(runRest); calling the function executes runSync at once, awaiting it
additionally executes runRest. -/
inductive Input where
  | scalar (v : Scalar)
  | builder (b : MessageBuilder)
  | syncFn (f : MessageBuilder → MessageBuilder) (srcHasAsyncText : Bool)
  | asyncFn (runSync : MessageBuilder → MessageBuilder)
            (runRest : MessageBuilder → MessageBuilder)

/-- A JavaScript function value is never an instance of Promise, so the
guard message instanceof Promise inside MessageBuilder.add and
MessageBuilder.addKv is always false for both synchronous and
asynchronous callbacks; the corresponding error branch is dead code. -/
def fnInstanceofPromise : Bool := false

/-- The error text of the dead Promise guard in MessageBuilder.add. -/
def addAsyncErr : String := "Unsupported async message. Use addAsync instead."

/-- The error text of the dead Promise guard in MessageBuilder.addKv. -/
def addKvAsyncErr : String := "Unsupported async message. Use addKvAsync instead."

/-- Source MessageBuilder.add.  Returns the builder after the call and
the thrown error if any (state first, because a JavaScript throw leaves
the mutations already performed in place; here the throw branch runs
before any mutation).  A callback input is invoked at once with a fresh
child composer inheriting the argument mapping; for an asynchronous
callback only the part of the body before the first await has run when
the child is pushed. -/
def MessageBuilder.add : MessageBuilder → Input → MessageBuilder × Option String
  | .mk ci args ps, .scalar v =>
    (.mk ci args (ps.append (.consScalar v .nil)), none)
  | .mk ci args ps, .builder b =>
    (.mk ci args (ps.append (.consChild b .nil)), none)
  | .mk ci args ps, .syncFn f _ =>
    if fnInstanceofPromise then (.mk ci args ps, some addAsyncErr)
    else (.mk ci args (ps.append (.consChild (f (msgNew args)) .nil)), none)
  | .mk ci args ps, .asyncFn runSync _ =>
    if fnInstanceofPromise then (.mk ci args ps, some addAsyncErr)
    else (.mk ci args (ps.append (.consChild (runSync (msgNew args)) .nil)), none)

/-- Source MessageBuilder.addKv.  A scalar value yields one combined
part; a composer or callback value yields a key line followed by the
nested composer as a separate part.  The Promise guard is the same dead
check as in add. -/
def MessageBuilder.addKv : MessageBuilder → String → Input → MessageBuilder × Option String
  | .mk ci args ps, key, .scalar v =>
    (.mk ci args (ps.append (.consScalar (.s (key ++ ": " ++ v.toStr)) .nil)), none)
  | .mk ci args ps, key, .builder b =>
    (.mk ci args (ps.append (.consScalar (.s (key ++ ":"))
      (.consChild b .nil))), none)
  | .mk ci args ps, key, .syncFn f _ =>
    if fnInstanceofPromise then (.mk ci args ps, some addKvAsyncErr)
    else (.mk ci args (ps.append (.consScalar (.s (key ++ ":"))
      (.consChild (f (msgNew args)) .nil))), none)
  | .mk ci args ps, key, .asyncFn runSync _ =>
    if fnInstanceofPromise then (.mk ci args ps, some addKvAsyncErr)
    else (.mk ci args (ps.append (.consScalar (.s (key ++ ":"))
      (.consChild (runSync (msgNew args)) .nil))), none)

/-- Source MessageBuilder.addAsync: the callback is awaited, so both
stages of the asynchronous callback run before the child is pushed. -/
def MessageBuilder.addAsync (mb : MessageBuilder)
    (runSync runRest : MessageBuilder → MessageBuilder) : MessageBuilder :=
  match mb with
  | .mk ci args ps =>
    .mk ci args (ps.append (.consChild (runRest (runSync (msgNew args))) .nil))

/-- String coercion of a MessageBuilder instance by a JavaScript template
literal.  The class defines neither toString nor Symbol.toPrimitive, and
toJSON is consulted only by JSON.stringify, never by string coercion, so
the default Object.prototype.toString is used. -/
def jsObjectString : String := "[object Object]"

/-- Source MessageBuilder.addKvAsync: the callback is awaited on a fresh
child composer, then a single scalar part is pushed whose text is the
template-literal interpolation of the key and the child object. -/
def MessageBuilder.addKvAsync (mb : MessageBuilder) (key : String)
    (runSync runRest : MessageBuilder → MessageBuilder) : MessageBuilder :=
  match mb with
  | .mk ci args ps =>
    let _child := runRest (runSync (msgNew args))
    .mk ci args (ps.append (.consScalar (.s (key ++ ": " ++ jsObjectString)) .nil))

/-- A sequence of add calls, keeping the state after each call. -/
def addSeq (mb : MessageBuilder) (inputs : List Input) : MessageBuilder :=
  inputs.foldl (fun m i => (MessageBuilder.add m i).1) mb

/-- Conversation roles, source type ChatMessageRole. -/
inductive Role where
  | system
  | user
  | assistant
deriving DecidableEq, BEq

/-- The role string used in source template literals. -/
def roleStr : Role → String
  | .system => "system"
  | .user => "user"
  | .assistant => "assistant"

/-- Stored content of a turn.  The source scalar branch of
PromptBuilder push stores the already template-substituted string, so a
stored content is a string or a composer. -/
inductive StoredContent where
  | strC (s : String)
  | builderC (b : MessageBuilder)

/-- Caller-defined metadata of a turn, source options extra spread into
the stored record (namespace AIPrompter.BuildingPrompt). -/
abbrev Meta := List (String × Value)

/-- A stored turn of the sequencer, source private field _messages. -/
structure Turn where
  role : Role
  content : StoredContent
  placeholder : Option String
  extra : Meta

/-- Source class PromptBuilder: the argument mapping and the ordered
turn list. -/
structure PromptBuilder where
  args : Args
  messages : List Turn

/-- The error thrown by the source _push for an input detected as an
asynchronous callback. -/
def asyncPushErr (role : Role) : String :=
  "Async function cannot be used with non-async message method. Use "
    ++ roleStr role ++ "MessageAsync instead."

/-- Source PromptBuilder._push.  Returns the sequencer after the call
and the thrown error if any; for a function input the heuristic
isAsyncFunction is consulted first (an asynchronous function is always
detected through its constructor name, a synchronous function is
misdetected when its source text contains the word async), and the throw
happens before any push.  A scalar input is template substituted at
append time with the sequencer mapping. -/
def PromptBuilder.push (pb : PromptBuilder) (input : Input) (role : Role)
    (ph : Option String) (extra : Meta) : PromptBuilder × Option String :=
  match input with
  | .syncFn f srcHasAsyncText =>
    if srcHasAsyncText then (pb, some (asyncPushErr role))
    else
      ({ pb with messages :=
          pb.messages ++ [⟨role, .builderC (f (msgNew pb.args)), ph, extra⟩] }, none)
  | .asyncFn _ _ => (pb, some (asyncPushErr role))
  | .builder b =>
    ({ pb with messages := pb.messages ++ [⟨role, .builderC b, ph, extra⟩] }, none)
  | .scalar v =>
    ({ pb with messages :=
        pb.messages ++ [⟨role, .strC (buildTemplate v.toStr pb.args), ph, extra⟩] }, none)

/-- Source PromptBuilder.userMessage. -/
def PromptBuilder.userMessage (pb : PromptBuilder) (input : Input)
    (ph : Option String := none) (extra : Meta := []) : PromptBuilder × Option String :=
  pb.push input .user ph extra

/-- Source PromptBuilder.assistantMessage. -/
def PromptBuilder.assistantMessage (pb : PromptBuilder) (input : Input)
    (ph : Option String := none) (extra : Meta := []) : PromptBuilder × Option String :=
  pb.push input .assistant ph extra

/-- Source PromptBuilder.systemMessage. -/
def PromptBuilder.systemMessage (pb : PromptBuilder) (input : Input)
    (ph : Option String := none) (extra : Meta := []) : PromptBuilder × Option String :=
  pb.push input .system ph extra

/-- Resolution of a stored content at build time: a string is returned
as is (toString of a string), a composer first has its argument mapping
overwritten with the sequencer-merged mapping and is then rendered with
the default build arguments. -/
def resolveContent (pbArgs : Args) (g : String) : StoredContent → String
  | .strC s => s
  | .builderC (.mk ci a ps) => (buildMB (.mk ci (mergeArgs pbArgs a) ps) false none g).1

/-- A filter predicate, source type MessageFilter.  It receives the
stored record: role, stored content, placeholder and metadata. -/
abbrev FilterFn := Role → StoredContent → Option String → Meta → Bool

/-- Application of the optional filter, source expression
filter ? (e) => filter(e) : () => true. -/
def applyFilter (f : Option FilterFn) (t : Turn) : Bool :=
  match f with
  | some f => f t.role t.content t.placeholder t.extra
  | none => true

/-- A flat output message, source type ChatMessage as produced by
build (the map emits only role and content). -/
structure ChatMsg where
  role : Role
  content : String
deriving DecidableEq

/-- An output message of buildForAssistant, source type ThreadMessage. -/
structure ThreadMsg where
  role : Role
  content : String
deriving DecidableEq

/-- Result of buildForAssistant. -/
structure BfaResult where
  messages : List ThreadMsg
  context : Option String
deriving DecidableEq

/-- The partition loop of the source buildForAssistant over the resolved
survivors, in order: a system turn appends its content to the context
accumulator; any other turn appends its placeholder to the context
accumulator when the placeholder is truthy (a nonempty string), and the
turn itself to the message accumulator. -/
def contextLoop : List (Role × String × Option String) → List String × List ThreadMsg
  | [] => ([], [])
  | (r, c, ph) :: rest =>
    let (cps, ms) := contextLoop rest
    if r = .system then (c :: cps, ms)
    else
      match ph with
      | some p => if p = "" then (cps, ⟨r, c⟩ :: ms) else (p :: cps, ⟨r, c⟩ :: ms)
      | none => (cps, ⟨r, c⟩ :: ms)

/-- Source PromptBuilder.buildForAssistant: filter the stored turns,
resolve each survivor, then partition into context parts and messages;
the context is the newline join of the context parts, or undefined when
no context part was accumulated. -/
def PromptBuilder.buildForAssistant (pb : PromptBuilder) (f : Option FilterFn)
    (g : String) : BfaResult :=
  let resolved := (pb.messages.filter (applyFilter f)).map
    (fun t => (t.role, resolveContent pb.args g t.content, t.placeholder))
  ⟨(contextLoop resolved).2,
   if (contextLoop resolved).1.isEmpty then none
   else some (joinNl (contextLoop resolved).1)⟩

/-- Source PromptBuilder.build: filter the stored turns and resolve
each survivor to a role and content record. -/
def PromptBuilder.build (pb : PromptBuilder) (f : Option FilterFn)
    (g : String) : List ChatMsg :=
  (pb.messages.filter (applyFilter f)).map
    (fun t => ⟨t.role, resolveContent pb.args g t.content⟩)

/-! Sanity checks: the embedding reproduces the unit tests of the
repository (indent ---- as in the test file). -/

example :
    (buildMB (addSeq (msgNew []) [.scalar (.s "Hello"), .scalar (.s "World")])
      false none "----").1 = "Hello\nWorld" := by rfl

example :
    (buildMB (.mk none [] (.consChild (.mk none []
      (.consChild (.mk none [] (.consChild (.mk none []
        (.consScalar (.s "Deep Message") .nil)) .nil)) .nil)) .nil))
      false none "----").1 = "------------Deep Message" := by rfl

example :
    (buildMB (MessageBuilder.addKv (msgNew []) "data"
        (.builder (.mk none [] (.consScalar (.s "Nested Value") .nil)))).1
      false none "----").1 = "data:\n----Nested Value" := by rfl

example :
    (buildMB (MessageBuilder.add (.mk none
        [("name", .scalar (.s "John")), ("age", .scalar (.n 25))]
        (.consScalar (.s "Name: \x7b\x7bname\x7d\x7d") .nil))
        (.builder (.mk none [] (.consScalar (.s "Age: \x7b\x7bage\x7d\x7d") .nil)))).1
      false none "----").1 = "Name: John\n----Age: 25" := by rfl

example : buildTemplateRun "Hello \x7b\x7bname\x7d\x7d!" [] =
    ("Hello \x7b\x7bname\x7d\x7d!", ["Template argument \"name\" not found in args"]) := by rfl

example : buildTemplate "Hello \x7bname\x7d!" [("name", .scalar (.s "John"))]
    = "Hello \x7bname\x7d!" := by rfl

example :
    PromptBuilder.buildForAssistant
      ⟨[], [⟨.system, .strC "System 1", none, []⟩,
            ⟨.system, .strC "System 2", none, []⟩,
            ⟨.user, .strC "User msg", some "placeholder1", []⟩]⟩ none "   "
    = ⟨[⟨.user, "User msg"⟩], some "System 1\nSystem 2\nplaceholder1"⟩ := by rfl

example :
    PromptBuilder.buildForAssistant
      ⟨[], [⟨.user, .strC "User msg", none, []⟩,
            ⟨.assistant, .strC "Assistant msg", none, []⟩]⟩ none "   "
    = ⟨[⟨.user, "User msg"⟩, ⟨.assistant, "Assistant msg"⟩], none⟩ := by rfl

/-! Helper lemmas about part sequences. -/

theorem Parts.append_nil : ∀ (p : Parts), p.append .nil = p
  | .nil => rfl
  | .consScalar v r => by simp [Parts.append, Parts.append_nil r]
  | .consChild c r => by simp [Parts.append, Parts.append_nil r]

theorem Parts.append_assoc : ∀ (p q r : Parts),
    (p.append q).append r = p.append (q.append r)
  | .nil, _, _ => rfl
  | .consScalar v rest, q, r => by simp [Parts.append, Parts.append_assoc rest q r]
  | .consChild c rest, q, r => by simp [Parts.append, Parts.append_assoc rest q r]

theorem Parts.len_append : ∀ (p q : Parts), (p.append q).len = p.len + q.len
  | .nil, q => by simp [Parts.append, Parts.len]
  | .consScalar v rest, q => by
    simp [Parts.append, Parts.len, Parts.len_append rest q]; omega
  | .consChild c rest, q => by
    simp [Parts.append, Parts.len, Parts.len_append rest q]; omega

/-- C5.  For every asynchronous callback passed to a synchronous
role-message method of the Turn Sequencer (userMessage, systemMessage,
assistantMessage), the call throws synchronously with a message naming
the corresponding role MessageAsync method, and the stored turn list is
unchanged by the failed call: the result state is the original sequencer
and the error names the async counterpart. -/
theorem c5_sync_role_method_rejects_async_callback
    (pb : PromptBuilder) (runSync runRest : MessageBuilder → MessageBuilder)
    (ph : Option String) (extra : Meta) :
    pb.userMessage (.asyncFn runSync runRest) ph extra
      = (pb, some "Async function cannot be used with non-async message method. Use userMessageAsync instead.")
    ∧ pb.systemMessage (.asyncFn runSync runRest) ph extra
      = (pb, some "Async function cannot be used with non-async message method. Use systemMessageAsync instead.")
    ∧ pb.assistantMessage (.asyncFn runSync runRest) ph extra
      = (pb, some "Async function cannot be used with non-async message method. Use assistantMessageAsync instead.") :=
  ⟨rfl, rfl, rfl⟩

/-- C5 witness: the theorem applied at a concrete sequencer and
callback. -/
theorem c5_sync_role_method_rejects_async_callback_witness :
    PromptBuilder.userMessage ⟨[], []⟩
        (.asyncFn (fun m => (m.add (.scalar (.s "This will fail"))).1) id) none []
      = (⟨[], []⟩,
         some "Async function cannot be used with non-async message method. Use userMessageAsync instead.") :=
  (c5_sync_role_method_rejects_async_callback ⟨[], []⟩
    (fun m => (m.add (.scalar (.s "This will fail"))).1) id none []).1

/-- C3.  The awaited child of addKvAsync is interpolated into a template
literal, and string coercion of a MessageBuilder object does not invoke
toJSON: the appended part reads key colon [object Object] no matter what
the callback wrote into the child.  Evaluated at the failing input: the
callback writes hello, the child renders hello, yet the appended part is
the coerced object text. -/
theorem c3_addKvAsync_appends_object_coercion :
    MessageBuilder.addKvAsync (msgNew []) "greeting"
        (fun m => (m.add (.scalar (.s "hello"))).1) id
      = .mk none [] (.consScalar (.s "greeting: [object Object]") .nil)
    ∧ (buildMB ((fun m => (MessageBuilder.add m (.scalar (.s "hello"))).1) (msgNew []))
        false none "   ").1 = "hello"
    ∧ (buildMB (MessageBuilder.addKvAsync (msgNew []) "greeting"
        (fun m => (m.add (.scalar (.s "hello"))).1) id) false none "   ").1
      = "greeting: [object Object]" :=
  ⟨rfl, rfl, rfl⟩

/-- C4 counterexample.  Calling MessageBuilder.add with an asynchronous
callback does not fail and does append a part, and likewise addKv: the
guard checks message instanceof Promise, which no function satisfies. -/
theorem c4_counterexample_add_accepts_async_callback :
    (MessageBuilder.add (msgNew [])
        (.asyncFn (fun m => (m.add (.scalar (.s "x"))).1) id)).2 = none
    ∧ (MessageBuilder.add (msgNew [])
        (.asyncFn (fun m => (m.add (.scalar (.s "x"))).1) id)).1.partsLen = 1
    ∧ (msgNew []).partsLen = 0
    ∧ (MessageBuilder.addKv (msgNew []) "k"
        (.asyncFn (fun m => (m.add (.scalar (.s "x"))).1) id)).2 = none
    ∧ (MessageBuilder.addKv (msgNew []) "k"
        (.asyncFn (fun m => (m.add (.scalar (.s "x"))).1) id)).1.partsLen = 2 :=
  ⟨rfl, rfl, rfl, rfl, rfl⟩

/-- C4 amended.  MessageBuilder.add and MessageBuilder.addKv never throw
for any input: the Promise guard is dead, because a function is never an
instance of Promise.  An asynchronous callback is treated like a
synchronous one: it is invoked at once on a fresh child inheriting the
argument mapping (only its pre-await portion has run), its promise is
discarded, and the child is appended, so add grows the part list by
exactly one part. -/
theorem c4_amended_add_never_rejects
    (mb : MessageBuilder) (input : Input) (key : String)
    (runSync runRest : MessageBuilder → MessageBuilder) :
    (mb.add input).2 = none
    ∧ (mb.add input).1.partsLen = mb.partsLen + 1
    ∧ (mb.addKv key input).2 = none
    ∧ mb.add (.asyncFn runSync runRest)
        = (.mk mb.customIndent mb.args
            (mb.parts.append (.consChild (runSync (msgNew mb.args)) .nil)), none) := by
  obtain ⟨ci, args, ps⟩ := mb
  refine ⟨?_, ?_, ?_, rfl⟩
  · cases input <;> simp [MessageBuilder.add, fnInstanceofPromise]
  · cases input <;>
      simp [MessageBuilder.add, fnInstanceofPromise, MessageBuilder.partsLen,
        MessageBuilder.parts, Parts.len_append, Parts.len]
  · cases input <;> simp [MessageBuilder.addKv, fnInstanceofPromise]

/-- A sequence of scalar add calls appends the scalars in order. -/
theorem addSeq_scalars : ∀ (vs : List Scalar) (ci : Option String) (args : Args) (ps : Parts),
    addSeq (.mk ci args ps) (vs.map Input.scalar) = .mk ci args (ps.append (.ofScalars vs))
  | [], ci, args, ps => by
    simp [addSeq, Parts.ofScalars, Parts.append_nil]
  | v :: vs, ci, args, ps => by
    have ih := addSeq_scalars vs ci args (ps.append (.consScalar v .nil))
    simp only [List.map_cons, addSeq, List.foldl_cons, MessageBuilder.add] at ih ⊢
    rw [ih, Parts.append_assoc]
    rfl

/-- Rendering a scalar-only part sequence template-substitutes each
scalar in order and mutates nothing. -/
theorem goParts_ofScalars : ∀ (vs : List Scalar) (args : Args) (int : String),
    goParts args int (Parts.ofScalars vs)
      = (vs.map (fun v => buildTemplate v.toStr args), Parts.ofScalars vs)
  | [], _, _ => rfl
  | v :: vs, args, int => by
    simp [Parts.ofScalars, goParts, goParts_ofScalars vs args int]

/-- C6.  For every sequence of add calls whose arguments are all
scalars, build with no arguments returns exactly the
template-substituted text forms of those values joined by a single
newline, in append order. -/
theorem c6_scalar_adds_build_joins_substituted_texts
    (ci : Option String) (args : Args) (g : String) (vs : List Scalar) :
    (buildMB (addSeq (.mk ci args .nil) (vs.map Input.scalar)) false none g).1
      = joinNl (vs.map (fun v => buildTemplate v.toStr args)) := by
  rw [addSeq_scalars]
  show (buildMB (.mk ci args (Parts.append .nil (.ofScalars vs))) false none g).1 = _
  simp [buildMB, Parts.append, goParts_ofScalars]

/-- Lookup of a key distributes over list concatenation. -/
theorem lookupArg_append : ∀ (l1 l2 : Args) (k : String),
    lookupArg (l1 ++ l2) k
      = match lookupArg l1 k with
        | some v => some v
        | none => lookupArg l2 k
  | [], _, _ => rfl
  | (k0, v0) :: rest, l2, k => by
    by_cases h : k0 = k <;> simp [lookupArg, h, lookupArg_append rest l2 k]

/-- A key absent from the overriding side and present in the parent
side survives the merge filter and is found there. -/
theorem lookupArg_filter_keep : ∀ (p c : Args) (k : String),
    lookupArg c k = none → (lookupArg p k).isSome →
    (lookupArg (p.filter (fun kv => (lookupArg c kv.1).isNone)) k).isSome
  | [], _, k => by
    intro _ h
    simp [lookupArg] at h
  | (k0, v0) :: rest, c, k => by
    intro hc hp
    by_cases hk : k0 = k
    · subst hk
      simp [List.filter_cons, lookupArg, hc]
    · simp only [lookupArg, hk, if_false] at hp
      have ih := lookupArg_filter_keep rest c k hc hp
      by_cases hkeep : (lookupArg c k0).isNone
      · simpa [List.filter_cons, hkeep, lookupArg, hk]
      · simpa [List.filter_cons, hkeep]

/-- A key present in either side is found in the merged mapping. -/
theorem lookupArg_mergeArgs_isSome (p c : Args) (k : String)
    (h : (lookupArg p k).isSome ∨ (lookupArg c k).isSome) :
    (lookupArg (mergeArgs p c) k).isSome := by
  rw [mergeArgs, lookupArg_append]
  rcases hc : lookupArg c k with _ | v
  · rcases h with h | h
    · have hkeep := lookupArg_filter_keep p c k hc h
      rcases hfind : lookupArg (p.filter (fun kv => (lookupArg c kv.1).isNone)) k with _ | v
      · rw [hfind] at hkeep
        simp at hkeep
      · simp
    · rw [hc] at h
      simp at h
  · cases hfind : lookupArg (p.filter (fun kv => (lookupArg c kv.1).isNone)) k <;> simp

/-- Lookup of the key of a list member succeeds. -/
theorem lookupArg_isSome_of_mem : ∀ (p : Args) (kv : String × Value),
    kv ∈ p → (lookupArg p kv.1).isSome
  | [], _ => by
    intro h
    cases h
  | (k0, v0) :: rest, kv => by
    intro h
    by_cases hk : k0 = kv.1
    · simp [lookupArg, hk]
    · rcases List.mem_cons.mp h with h2 | h2
      · rw [h2] at hk
        simp at hk
      · simp only [lookupArg, hk, if_false]
        exact lookupArg_isSome_of_mem rest kv h2

/-- Overwriting a child mapping twice with the same parent merge is the
same as overwriting it once: the merge is idempotent in its child
argument. -/
theorem mergeArgs_idem (p c : Args) : mergeArgs p (mergeArgs p c) = mergeArgs p c := by
  show List.filter _ p ++ mergeArgs p c = mergeArgs p c
  have hfil : p.filter (fun kv => (lookupArg (mergeArgs p c) kv.1).isNone) = [] := by
    rw [List.filter_eq_nil_iff]
    intro kv hkv
    have hsome : (lookupArg (mergeArgs p c) kv.1).isSome :=
      lookupArg_mergeArgs_isSome p c kv.1 (Or.inl (lookupArg_isSome_of_mem p kv hkv))
    cases hlk : lookupArg (mergeArgs p c) kv.1 with
    | none => rw [hlk] at hsome; simp at hsome
    | some v => simp [hlk]
  rw [hfil, List.nil_append]

mutual
/-- Rendering the parts a second time, after the argument overwrites of
a first render, produces the same strings and the same structure. -/
theorem goParts_stable : ∀ (args : Args) (int : String) (ps : Parts),
    goParts args int (goParts args int ps).2 = goParts args int ps
  | args, int, .nil => rfl
  | args, int, .consScalar v r => by
    simp [goParts, goParts_stable args int r]
  | args, int, .consChild c r => by
    simp [goParts, goParts_stable args int r, goChild_stable args int c]

/-- Rendering a child a second time, after its argument mapping was
overwritten with the parent-merged mapping, produces the same string and
the same structure. -/
theorem goChild_stable : ∀ (args : Args) (int : String) (c : MessageBuilder),
    goChild args int (goChild args int c).2 = goChild args int c
  | args, int, .mk cci cargs cparts => by
    simp [goChild, mergeArgs_idem, goParts_stable (mergeArgs args cargs) int cparts]
end

/-- C8.  For every composer, calling build twice in a row yields
identical output, even though each render overwrites every child
argument mapping with the parent-merged mapping: rendering the composer
returned by a first default build gives the same string, and the same
composer again. -/
theorem c8_build_idempotent (mb : MessageBuilder) (g : String) :
    (buildMB (buildMB mb false none g).2 false none g).1 = (buildMB mb false none g).1
    ∧ (buildMB (buildMB mb false none g).2 false none g).2 = (buildMB mb false none g).2 := by
  obtain ⟨ci, args, ps⟩ := mb
  simp [buildMB, goParts_stable]

/-- C4 amended witness: the theorem applied at a concrete builder and
asynchronous callback. -/
theorem c4_amended_add_never_rejects_witness :
    (MessageBuilder.add (msgNew []) (.asyncFn id id)).2 = none
    ∧ (MessageBuilder.add (msgNew []) (.asyncFn id id)).1.partsLen
        = (msgNew []).partsLen + 1
    ∧ (MessageBuilder.addKv (msgNew []) "key" (.asyncFn id id)).2 = none
    ∧ MessageBuilder.add (msgNew []) (.asyncFn id id)
        = (.mk (msgNew []).customIndent (msgNew []).args
            ((msgNew []).parts.append (.consChild (id (msgNew (msgNew []).args)) .nil)),
           none) :=
  c4_amended_add_never_rejects (msgNew []) (.asyncFn id id) "key" id id

/-- String append is concatenation of the underlying data. -/
theorem strData_append (a b : String) : (a ++ b).data = a.data ++ b.data := by
  cases a
  cases b
  rfl

/-- Rebuilding a string from its data is the identity. -/
theorem strMk_data (s : String) : String.mk s.data = s := by
  cases s
  rfl

/-- String append is associative. -/
theorem strAppend_assoc (a b c : String) : a ++ b ++ c = a ++ (b ++ c) := by
  cases a
  cases b
  cases c
  show String.mk _ = String.mk _
  rw [List.append_assoc]

/-- The empty string is a left identity of append. -/
theorem strEmpty_append (s : String) : "" ++ s = s := by
  cases s
  rfl

/-- The empty string is a right identity of append. -/
theorem strAppend_empty (s : String) : s ++ "" = s := by
  cases s
  show String.mk _ = String.mk _
  rw [List.append_nil]

/-- Whether a part sequence is empty. -/
def Parts.isNil : Parts → Bool
  | .nil => true
  | .consScalar _ _ => false
  | .consChild _ _ => false

mutual
/-- Every nested composer in the sequence has at least one part. -/
def Parts.allNonempty : Parts → Bool
  | .nil => true
  | .consScalar _ r => r.allNonempty
  | .consChild c r => c.nonemptyAll && r.allNonempty

/-- The composer and every composer nested in it have at least one
part.  An empty composer renders to the empty string, which contributes
an empty joined line owned by no part; the line-level description below
excludes that degenerate case. -/
def MessageBuilder.nonemptyAll : MessageBuilder → Bool
  | .mk _ _ ps => !ps.isNil && ps.allNonempty
end

/-- The string contains no newline. -/
def noNl (s : String) : Bool := s.data.all (fun c => c ≠ nlChar)

/-- Concatenated lines of a list of strings. -/
def flatLines : List String → List String
  | [] => []
  | s :: rest => linesOf s ++ flatLines rest

/-- Specification-side line description of a rendered part sequence,
following the words of the spec: parts are rendered in order; every line
of a part sitting at nesting depth d is prefixed by the effective
indentation string repeated exactly d times; a nested composer renders
its parts one level deeper under the parent-merged argument mapping.
The top level is depth zero: its own first level of parts is never
indented. -/
def specLinesParts (int : String) : Args → Nat → Parts → List String
  | _, _, .nil => []
  | args, d, .consScalar v rest =>
    (linesOf (buildTemplate v.toStr args)).map (fun l => repeatStr int d ++ l)
      ++ specLinesParts int args d rest
  | args, d, .consChild (.mk _ cargs cps) rest =>
    specLinesParts int (mergeArgs args cargs) (d + 1) cps
      ++ specLinesParts int args d rest

/-- Specification-side line description of a whole composer: depth zero
at the top, with the effective indentation string of the root (its
override if present, else the process-wide default). -/
def specLinesTop (g : String) : MessageBuilder → List String
  | .mk ci args ps => specLinesParts (ci.getD g) args 0 ps

/-- The indentation string repeated once more, from the left. -/
theorem repeatStr_comm (s : String) : ∀ (n : Nat),
    repeatStr s n ++ s = s ++ repeatStr s n
  | 0 => by
    simp [repeatStr, strEmpty_append, strAppend_empty]
  | n + 1 => by
    rw [repeatStr, strAppend_assoc, repeatStr_comm s n]

/-- Splitting at newlines never yields an empty piece list. -/
theorem splitNlChars_ne_nil : ∀ (l : List Char), splitNlChars l ≠ []
  | [] => by simp [splitNlChars]
  | c :: rest => by
    cases hrec : splitNlChars rest with
    | nil => exact absurd hrec (splitNlChars_ne_nil rest)
    | cons h t =>
      by_cases hc : c = nlChar <;> simp [splitNlChars, hrec, hc]

/-- A string has at least one line. -/
theorem linesOf_ne_nil (s : String) : linesOf s ≠ [] := by
  intro h
  rw [linesOf] at h
  exact splitNlChars_ne_nil s.data (List.map_eq_nil_iff.mp h)

/-- Splitting distributes over an explicit newline. -/
theorem splitNlChars_append_nl : ∀ (a b : List Char),
    splitNlChars (a ++ nlChar :: b) = splitNlChars a ++ splitNlChars b
  | [], b => by
    cases hb : splitNlChars b with
    | nil => exact absurd hb (splitNlChars_ne_nil b)
    | cons h t => simp [splitNlChars, hb]
  | c :: a, b => by
    have ih := splitNlChars_append_nl a b
    cases ha : splitNlChars a with
    | nil => exact absurd ha (splitNlChars_ne_nil a)
    | cons h t =>
      rw [ha] at ih
      by_cases hc : c = nlChar <;>
        simp [splitNlChars, ih, ha, hc]

/-- The lines of a newline join of two strings. -/
theorem linesOf_append_nl (a b : String) :
    linesOf (a ++ String.mk [nlChar] ++ b) = linesOf a ++ linesOf b := by
  rw [linesOf, strData_append, strData_append]
  rw [show (String.mk [nlChar]).data = [nlChar] from rfl]
  rw [List.append_assoc]
  rw [show ([nlChar] ++ b.data : List Char) = nlChar :: b.data from rfl]
  rw [splitNlChars_append_nl, List.map_append]
  rfl

/-- The lines of a newline join are the concatenated lines of the
joined strings, provided there is at least one string. -/
theorem joinNl_lines : ∀ (ss : List String), ss ≠ [] →
    linesOf (joinNl ss) = flatLines ss
  | [], h => absurd rfl h
  | [s], _ => by simp [joinNl, flatLines]
  | s :: s2 :: rest, _ => by
    have ih := joinNl_lines (s2 :: rest) (by simp)
    rw [joinNl, linesOf_append_nl, ih]
    rfl

/-- Every piece of a newline split is newline free. -/
theorem splitNlChars_pieces : ∀ (l : List Char) (p : List Char),
    p ∈ splitNlChars l → ∀ c ∈ p, c ≠ nlChar
  | [], p => by
    intro hp c hc
    simp [splitNlChars] at hp
    subst hp
    cases hc
  | c0 :: rest, p => by
    intro hp c hc
    have ih := splitNlChars_pieces rest
    cases hrec : splitNlChars rest with
    | nil => exact absurd hrec (splitNlChars_ne_nil rest)
    | cons h t =>
      simp only [splitNlChars, hrec] at hp
      by_cases hc0 : c0 = nlChar
      · rw [if_pos hc0] at hp
        rcases List.mem_cons.mp hp with hp2 | hp2
        · subst hp2
          cases hc
        · exact ih p (hrec ▸ hp2) c hc
      · rw [if_neg hc0] at hp
        rcases List.mem_cons.mp hp with hp2 | hp2
        · subst hp2
          rcases List.mem_cons.mp hc with hc2 | hc2
          · exact hc2 ▸ hc0
          · exact ih h (hrec ▸ List.mem_cons_self h t) c hc2
        · exact ih p (hrec ▸ List.mem_cons_of_mem h hp2) c hc

/-- A newline-free character list splits into a single piece. -/
theorem splitNlChars_no_nl : ∀ (l : List Char),
    (∀ c ∈ l, c ≠ nlChar) → splitNlChars l = [l]
  | [] => fun _ => rfl
  | c :: rest => by
    intro h
    have ih := splitNlChars_no_nl rest (fun x hx => h x (List.mem_cons_of_mem c hx))
    have hc : ¬(c = nlChar) := h c (List.mem_cons_self c rest)
    simp [splitNlChars, ih, hc]

/-- A newline-free string is its own single line. -/
theorem linesOf_no_nl (s : String) (h : ∀ c ∈ s.data, c ≠ nlChar) :
    linesOf s = [s] := by
  rw [linesOf, splitNlChars_no_nl s.data h]
  simp [strMk_data]

/-- Prefixing with a newline-free indentation maps each line. -/
theorem linesOf_indentLines (int s : String) (hint : noNl int = true) :
    linesOf (indentLines int s) = (linesOf s).map (fun l => int ++ l) := by
  have hintc : ∀ c ∈ int.data, c ≠ nlChar := by
    intro c hc
    have := List.all_eq_true.mp hint c hc
    simpa using this
  rw [indentLines]
  rw [joinNl_lines _ (by
    intro hmap
    exact linesOf_ne_nil s (List.map_eq_nil_iff.mp hmap))]
  have hgen : ∀ (ls : List String), (∀ l ∈ ls, ∀ c ∈ l.data, c ≠ nlChar) →
      flatLines (ls.map (fun l => int ++ l)) = ls.map (fun l => int ++ l) := by
    intro ls
    induction ls with
    | nil => intro _; rfl
    | cons l rest ih =>
      intro hls
      have hl : ∀ c ∈ (int ++ l).data, c ≠ nlChar := by
        intro c hc
        rw [strData_append] at hc
        rcases List.mem_append.mp hc with hc2 | hc2
        · exact hintc c hc2
        · exact hls l (List.mem_cons_self l rest) c hc2
      rw [List.map_cons, flatLines, linesOf_no_nl _ hl,
        ih (fun x hx => hls x (List.mem_cons_of_mem l hx))]
      rfl
  rw [hgen (linesOf s) (by
    intro l hl c hc
    rw [linesOf] at hl
    obtain ⟨p, hp, rfl⟩ := List.mem_map.mp hl
    exact splitNlChars_pieces s.data p hp c hc)]

/-- Indenting a string list maps the indentation onto every line. -/
theorem flatLines_map_indent (int : String) (hint : noNl int = true) :
    ∀ (ls : List String),
    flatLines (ls.map (indentLines int)) = (flatLines ls).map (fun l => int ++ l)
  | [] => rfl
  | s :: rest => by
    rw [List.map_cons, flatLines, flatLines, List.map_append,
      linesOf_indentLines int s hint, flatLines_map_indent int hint rest]

/-- A nonempty part sequence renders at least one part string. -/
theorem goParts_fst_ne_nil (args : Args) (int : String) :
    ∀ (ps : Parts), ps.isNil = false → (goParts args int ps).1 ≠ []
  | .nil, h => by cases h
  | .consScalar v r, _ => by simp [goParts]
  | .consChild c r, _ => by simp [goParts]

/-- The rendered part strings describe, line by line, exactly the
specification rendering: at depth d every line carries the indentation
repeated d times, one extra repetition per nesting level. -/
theorem goParts_speclines : ∀ (args : Args) (int : String) (d : Nat) (ps : Parts),
    noNl int = true → ps.allNonempty = true →
    (flatLines ((goParts args int ps).1)).map (fun l => repeatStr int d ++ l)
      = specLinesParts int args d ps
  | args, int, d, .nil, _, _ => rfl
  | args, int, d, .consScalar v rest, hint, hne => by
    have ih := goParts_speclines args int d rest hint
      (by rw [Parts.allNonempty] at hne; exact hne)
    rw [goParts, specLinesParts, flatLines, List.map_append, ih]
  | args, int, d, .consChild (.mk cci cargs cps) rest, hint, hne => by
    rw [Parts.allNonempty, MessageBuilder.nonemptyAll, Bool.and_eq_true,
      Bool.and_eq_true] at hne
    obtain ⟨⟨hcnil, hcne⟩, hrne⟩ := hne
    have ihc := goParts_speclines (mergeArgs args cargs) int (d + 1) cps hint hcne
    have ihr := goParts_speclines args int d rest hint hrne
    rw [goParts, specLinesParts, flatLines, List.map_append, ihr]
    have hcsne : (goParts (mergeArgs args cargs) int cps).1 ≠ [] := by
      apply goParts_fst_ne_nil
      cases cps with
      | nil => cases hcnil
      | consScalar _ _ => rfl
      | consChild _ _ => rfl
    rw [goChild]
    rw [joinNl_lines _ (by
      intro hmap
      exact hcsne (List.map_eq_nil_iff.mp hmap))]
    rw [flatLines_map_indent int hint]
    rw [List.map_map]
    rw [show ((fun l => repeatStr int d ++ l) ∘ fun l => int ++ l)
        = fun l => repeatStr int (d + 1) ++ l from by
      funext l
      show repeatStr int d ++ (int ++ l) = repeatStr int (d + 1) ++ l
      rw [← strAppend_assoc, repeatStr_comm, repeatStr]]
    rw [ihc]

/-- C7.  For every composer all of whose nested composers are nonempty
and whose effective indentation contains no newline, the lines of the
default build output are exactly the specification lines: every line of
a nested composer is prefixed by the effective indentation string once
per nesting depth (depth three means the indentation repeated three
times), and the top-level build with no arguments never indents its own
first level of parts.  An empty nested composer renders to the empty
string, which has no lines of its own; the nonemptiness hypothesis
excludes that degenerate case. -/
theorem c7_nested_lines_indented_once_per_depth
    (mb : MessageBuilder) (g : String)
    (h1 : mb.nonemptyAll = true)
    (h2 : noNl (mb.customIndent.getD g) = true) :
    linesOf ((buildMB mb false none g).1) = specLinesTop g mb := by
  obtain ⟨ci, args, ps⟩ := mb
  rw [MessageBuilder.nonemptyAll, Bool.and_eq_true] at h1
  obtain ⟨hnil, hne⟩ := h1
  rw [MessageBuilder.customIndent] at h2
  have hfst : (goParts args (ci.getD g) ps).1 ≠ [] := by
    apply goParts_fst_ne_nil
    cases hr : ps.isNil with
    | false => rfl
    | true => rw [hr] at hnil; cases hnil
  rw [buildMB, specLinesTop]
  rw [show (none : Option String).getD (ci.getD g) = ci.getD g from rfl]
  rw [if_neg (by simp)]
  rw [joinNl_lines _ hfst]
  have hmain := goParts_speclines args (ci.getD g) 0 ps h2 hne
  rw [← hmain]
  have hid : ∀ (ls : List String),
      ls.map (fun l => repeatStr (ci.getD g) 0 ++ l) = ls := by
    intro ls
    induction ls with
    | nil => rfl
    | cons l rest ih => rw [List.map_cons, ih, repeatStr, strEmpty_append]
  rw [hid]

/-- C7 witness: the theorem applied at the depth-three composer of the
unit tests, with indentation four dashes; the specification lines and
the build lines agree, both being the single line with the indentation
repeated three times. -/
theorem c7_nested_lines_indented_once_per_depth_witness :
    linesOf ((buildMB (.mk none [] (.consChild (.mk none []
        (.consChild (.mk none [] (.consChild (.mk none []
          (.consScalar (.s "Deep Message") .nil)) .nil)) .nil)) .nil))
      false none "----").1)
    = specLinesTop "----" (.mk none [] (.consChild (.mk none []
        (.consChild (.mk none [] (.consChild (.mk none []
          (.consScalar (.s "Deep Message") .nil)) .nil)) .nil)) .nil)) :=
  c7_nested_lines_indented_once_per_depth
    (.mk none [] (.consChild (.mk none []
      (.consChild (.mk none [] (.consChild (.mk none []
        (.consScalar (.s "Deep Message") .nil)) .nil)) .nil)) .nil))
    "----" (by rfl) (by rfl)

/-! Development for the context-partition properties of
buildForAssistant. -/

/-- JavaScript truthiness of an optional placeholder string: present and
nonempty. -/
def truthyPh : Option String → Bool
  | some p => p ≠ ""
  | none => false

/-- The surviving system-role turns. -/
def systemSurvivors (pb : PromptBuilder) (f : Option FilterFn) : List Turn :=
  (pb.messages.filter (applyFilter f)).filter (fun t => decide (t.role = Role.system))

/-- The surviving non-system turns carrying a truthy placeholder. -/
def placeholderSurvivors (pb : PromptBuilder) (f : Option FilterFn) : List Turn :=
  (pb.messages.filter (applyFilter f)).filter
    (fun t => !decide (t.role = Role.system) && truthyPh t.placeholder)

/-- The resolved survivors handed to the partition loop. -/
def resolvedTriples (pb : PromptBuilder) (f : Option FilterFn) (g : String) :
    List (Role × String × Option String) :=
  (pb.messages.filter (applyFilter f)).map
    (fun t => (t.role, resolveContent pb.args g t.content, t.placeholder))

/-- Specification-side description of the context accumulator, following
the words of the spec: a surviving system turn contributes its resolved
content; a surviving non-system turn contributes its placeholder when
the placeholder is a nonempty string; contributions are interleaved in
append order. -/
def contextPartsSpec : List (Role × String × Option String) → List String
  | [] => []
  | (r, c, ph) :: rest =>
    (if r = .system then [c]
     else
       match ph with
       | some p => if p = "" then [] else [p]
       | none => []) ++ contextPartsSpec rest

/-- The partition loop accumulates exactly the specification context
parts. -/
theorem contextLoop_fst : ∀ (l : List (Role × String × Option String)),
    (contextLoop l).1 = contextPartsSpec l
  | [] => rfl
  | (r, c, ph) :: rest => by
    have ih := contextLoop_fst rest
    by_cases hr : r = Role.system
    · simp [contextLoop, contextPartsSpec, hr, ih]
    · cases ph with
      | none => simp [contextLoop, contextPartsSpec, hr, ih]
      | some p =>
        by_cases hp : p = "" <;> simp [contextLoop, contextPartsSpec, hr, hp, ih]

/-- The specification context parts are empty exactly when no system
turn survives and no surviving non-system turn carries a truthy
placeholder. -/
theorem contextPartsSpec_eq_nil_iff :
    ∀ (L : List Turn) (args : Args) (g : String),
    contextPartsSpec (L.map (fun t => (t.role, resolveContent args g t.content, t.placeholder)))
      = []
    ↔ (L.filter (fun t => decide (t.role = Role.system)) = []
       ∧ L.filter (fun t => !decide (t.role = Role.system) && truthyPh t.placeholder) = [])
  | [], _, _ => by simp [contextPartsSpec]
  | t :: rest, args, g => by
    have ih := contextPartsSpec_eq_nil_iff rest args g
    obtain ⟨r, c, ph, ex⟩ := t
    by_cases hr : r = Role.system
    · simp [List.map_cons, contextPartsSpec, hr, List.filter_cons]
    · cases ph with
      | none =>
        simp [List.map_cons, contextPartsSpec, hr, List.filter_cons, truthyPh, ih]
      | some p =>
        by_cases hp : p = "" <;>
          simp [List.map_cons, contextPartsSpec, hr, hp, List.filter_cons, truthyPh, ih]

/-- C1 counterexample.  One surviving user turn with placeholder p and
no system turn: the context is defined (it is the placeholder), although
no system-role turn survives the filter, refuting the claimed
equivalence. -/
theorem c1_counterexample_context_defined_without_system :
    ¬ (((PromptBuilder.buildForAssistant
          ⟨[], [⟨.user, .strC "U", some "p", []⟩]⟩ none "   ").context = none)
        ↔ systemSurvivors ⟨[], [⟨.user, .strC "U", some "p", []⟩]⟩ none = []) := by
  intro h
  have h2 : (some "p" : Option String) = none := h.mpr rfl
  cases h2

/-- C1 amended.  The context of buildForAssistant is undefined exactly
when no system turn survives the filter AND no surviving non-system
turn carries a nonempty placeholder; otherwise it is the newline join of
the surviving system turns resolved contents interleaved, in append
order, with the nonempty placeholders of surviving non-system turns. -/
theorem c1_amended_context_characterisation
    (pb : PromptBuilder) (f : Option FilterFn) (g : String) :
    ((pb.buildForAssistant f g).context = none
      ↔ (systemSurvivors pb f = [] ∧ placeholderSurvivors pb f = []))
    ∧ (pb.buildForAssistant f g).context
        = (if contextPartsSpec (resolvedTriples pb f g) = []
           then none
           else some (joinNl (contextPartsSpec (resolvedTriples pb f g)))) := by
  have hloop := contextLoop_fst (resolvedTriples pb f g)
  have hctx : (pb.buildForAssistant f g).context
      = (if contextPartsSpec (resolvedTriples pb f g) = []
         then none
         else some (joinNl (contextPartsSpec (resolvedTriples pb f g)))) := by
    show (if (contextLoop (resolvedTriples pb f g)).1.isEmpty then none
          else some (joinNl (contextLoop (resolvedTriples pb f g)).1)) = _
    rw [hloop]
    by_cases hnil : contextPartsSpec (resolvedTriples pb f g) = []
    · rw [if_pos hnil, if_pos (by rw [hnil]; rfl)]
    · rw [if_neg hnil, if_neg (by
        intro hcontra
        exact hnil (List.isEmpty_iff.mp hcontra))]
  refine ⟨?_, hctx⟩
  rw [hctx]
  have hiff : contextPartsSpec (resolvedTriples pb f g) = []
      ↔ (systemSurvivors pb f = [] ∧ placeholderSurvivors pb f = []) :=
    contextPartsSpec_eq_nil_iff (pb.messages.filter (applyFilter f)) pb.args g
  constructor
  · intro hnone
    by_cases hnil : contextPartsSpec (resolvedTriples pb f g) = []
    · exact hiff.mp hnil
    · rw [if_neg hnil] at hnone
      cases hnone
  · intro hboth
    rw [if_pos (hiff.mpr hboth)]

/-- Replacement of the placeholder of every system turn. -/
def withSysPlaceholder (pb : PromptBuilder) (q : Option String) : PromptBuilder :=
  { pb with
    messages := pb.messages.map (fun t =>
      if t.role = Role.system then { t with placeholder := q } else t) }

/-- The default filter keeps every turn. -/
theorem filter_applyFilter_none : ∀ (l : List Turn), l.filter (applyFilter none) = l
  | [] => rfl
  | t :: rest => by
    simp [List.filter_cons, applyFilter, filter_applyFilter_none rest]

/-- Resolving after the system-placeholder replacement replaces the
placeholders of the system triples. -/
theorem mapSys_triples : ∀ (L : List Turn) (args : Args) (g : String) (q : Option String),
    (L.map (fun t => if t.role = Role.system then { t with placeholder := q } else t)).map
      (fun t => (t.role, resolveContent args g t.content, t.placeholder))
    = (L.map (fun t => (t.role, resolveContent args g t.content, t.placeholder))).map
      (fun e => if e.1 = Role.system then (e.1, e.2.1, q) else e)
  | [], _, _, _ => rfl
  | t :: rest, args, g, q => by
    have ih := mapSys_triples rest args g q
    obtain ⟨r, c, ph, ex⟩ := t
    by_cases hr : r = Role.system <;>
      simp only [List.map_cons, ih] <;> simp [hr]

/-- The partition loop never reads the placeholder of a system
triple. -/
theorem contextLoop_sysph : ∀ (l : List (Role × String × Option String)) (q : Option String),
    contextLoop (l.map (fun e => if e.1 = Role.system then (e.1, e.2.1, q) else e))
      = contextLoop l
  | [], _ => rfl
  | (r, c, ph) :: rest, q => by
    have ih := contextLoop_sysph rest q
    by_cases hr : r = Role.system
    · subst hr
      simp only [List.map_cons]
      simp [contextLoop, ih]
    · simp only [List.map_cons]
      simp only [show ((r, c, ph).1 = Role.system) = False from by simp [hr],
        if_false]
      simp [contextLoop, hr, ih]

/-- The flat map of build never reads any placeholder. -/
theorem buildMap_withSysPh : ∀ (L : List Turn) (args : Args) (g : String) (q : Option String),
    (L.map (fun t => if t.role = Role.system then { t with placeholder := q } else t)).map
      (fun t => (⟨t.role, resolveContent args g t.content⟩ : ChatMsg))
    = L.map (fun t => (⟨t.role, resolveContent args g t.content⟩ : ChatMsg))
  | [], _, _, _ => rfl
  | t :: rest, args, g, q => by
    have ih := buildMap_withSysPh rest args g q
    obtain ⟨r, c, ph, ex⟩ := t
    by_cases hr : r = Role.system <;>
      simp only [List.map_cons, ih] <;> simp [hr]

/-- C10.  A placeholder supplied on a system-role turn is ignored in
every output: replacing every system turn placeholder by anything (or
erasing it) changes neither the buildForAssistant result, whose context
accumulator always receives the system turns resolved contents and
placeholders only from non-system turns, nor the flat build result. -/
theorem c10_system_placeholder_ignored
    (pb : PromptBuilder) (q : Option String) (g : String) :
    (withSysPlaceholder pb q).buildForAssistant none g = pb.buildForAssistant none g
    ∧ (withSysPlaceholder pb q).build none g = pb.build none g := by
  constructor
  · simp only [PromptBuilder.buildForAssistant, withSysPlaceholder,
      filter_applyFilter_none]
    rw [mapSys_triples pb.messages pb.args g q,
      contextLoop_sysph (pb.messages.map
        (fun t => (t.role, resolveContent pb.args g t.content, t.placeholder))) q]
  · simp only [PromptBuilder.build, withSysPlaceholder, filter_applyFilter_none]
    exact buildMap_withSysPh pb.messages pb.args g q

/-! Development for the filter-input claim: what the predicate
receives. -/

/-- Specification-side flat build, following the words of the spec: the
turns are first resolved, then the predicate is applied to the role, the
RESOLVED text content, the placeholder and the metadata, then the
survivors are emitted. -/
def buildFilteredOnResolved (pb : PromptBuilder)
    (fS : Role → String → Option String → Meta → Bool) (g : String) : List ChatMsg :=
  ((pb.messages.map (fun t => (t.role, resolveContent pb.args g t.content,
      t.placeholder, t.extra))).filter
    (fun e => fS e.1 e.2.1 e.2.2.1 e.2.2.2)).map (fun e => ⟨e.1, e.2.1⟩)

/-- Specification-side buildForAssistant, following the words of the
spec: resolve, filter on the resolved text, then partition. -/
def bfaFilteredOnResolved (pb : PromptBuilder)
    (fS : Role → String → Option String → Meta → Bool) (g : String) : BfaResult :=
  let survivors := ((pb.messages.map (fun t => (t.role, resolveContent pb.args g t.content,
      t.placeholder, t.extra))).filter
    (fun e => fS e.1 e.2.1 e.2.2.1 e.2.2.2)).map (fun e => (e.1, e.2.1, e.2.2.1))
  ⟨(contextLoop survivors).2,
   if (contextLoop survivors).1.isEmpty then none
   else some (joinNl (contextLoop survivors).1)⟩

/-- Whether every stored turn content is a scalar string (substituted at
append time), as opposed to a deferred composer. -/
def allScalarStored (pb : PromptBuilder) : Bool :=
  pb.messages.all (fun t =>
    match t.content with
    | .strC _ => true
    | .builderC _ => false)

/-- C2 counterexample.  A predicate accepting exactly the turns whose
content it receives as a string: under the claim it would accept every
turn, since it would always receive the resolved text; on the code it
rejects the single turn, whose stored content is the unresolved
composer, so filtering before resolution is observable. -/
theorem c2_counterexample_filter_sees_unresolved_composer :
    ¬ (PromptBuilder.build
        ⟨[], [⟨.user, .builderC (.mk none [] (.consScalar (.s "hi") .nil)), none, []⟩]⟩
        (some (fun _ c _ _ =>
          match c with
          | .strC _ => true
          | .builderC _ => false)) "   "
      = buildFilteredOnResolved
        ⟨[], [⟨.user, .builderC (.mk none [] (.consScalar (.s "hi") .nil)), none, []⟩]⟩
        (fun r s ph m =>
          (fun _ c _ _ =>
            match c with
            | .strC (_ : String) => true
            | .builderC _ => false) r (StoredContent.strC s) ph m) "   ") := by
  intro h
  have h2 : ([] : List ChatMsg) = [⟨Role.user, "hi"⟩] := h
  exact List.cons_ne_nil _ _ h2.symm

/-- Resolution of an already substituted string is that string. -/
theorem resolveContent_strC (args : Args) (g : String) (s : String) :
    resolveContent args g (StoredContent.strC s) = s := rfl

/-- The optional filter wrapper applied to a stored turn. -/
theorem applyFilter_some (fC : FilterFn) (t : Turn) :
    applyFilter (some fC) t = fC t.role t.content t.placeholder t.extra := rfl

/-- Filtering commutes with resolution when every stored content is
already a string. -/
theorem filter_resolve_comm : ∀ (L : List Turn) (args : Args) (g : String)
    (fC : FilterFn),
    (∀ t ∈ L, ∃ s, t.content = StoredContent.strC s) →
    (L.filter (applyFilter (some fC))).map
      (fun t => (t.role, resolveContent args g t.content, t.placeholder, t.extra))
    = (L.map (fun t => (t.role, resolveContent args g t.content,
        t.placeholder, t.extra))).filter
      (fun e => fC e.1 (StoredContent.strC e.2.1) e.2.2.1 e.2.2.2)
  | [], _, _, _, _ => rfl
  | t :: rest, args, g, fC, h => by
    have ih := filter_resolve_comm rest args g fC
      (fun x hx => h x (List.mem_cons_of_mem t hx))
    obtain ⟨s, hs⟩ := h t (List.mem_cons_self t rest)
    obtain ⟨r, c, ph, ex⟩ := t
    have hs2 : c = StoredContent.strC s := hs
    subst hs2
    cases hf : fC r (StoredContent.strC s) ph ex <;>
      simp [List.filter_cons, List.map_cons, applyFilter_some, resolveContent_strC,
        hf, ih]

/-- C2 amended.  The predicate receives the stored turn record: role,
placeholder, metadata, and content as stored, which is the substituted
string for scalar inputs but the unresolved composer for Block Composer
content, because filtering happens before content resolution.  When
every appended turn has scalar content the original claim holds: for
every predicate, build (and buildForAssistant) equals the
specification-side resolve-then-filter pipeline in which the predicate
receives the resolved text. -/
theorem c2_amended_filter_on_stored_content
    (pb : PromptBuilder) (fC : FilterFn) (g : String)
    (h : allScalarStored pb = true) :
    pb.build (some fC) g
      = buildFilteredOnResolved pb
          (fun r s ph m => fC r (StoredContent.strC s) ph m) g
    ∧ pb.buildForAssistant (some fC) g
      = bfaFilteredOnResolved pb
          (fun r s ph m => fC r (StoredContent.strC s) ph m) g := by
  have hstr : ∀ t ∈ pb.messages, ∃ s, t.content = StoredContent.strC s := by
    intro t ht
    have := List.all_eq_true.mp h t ht
    cases hc : t.content with
    | strC s => exact ⟨s, rfl⟩
    | builderC b => rw [hc] at this; cases this
  have hcomm := filter_resolve_comm pb.messages pb.args g fC hstr
  constructor
  · show (pb.messages.filter (applyFilter (some fC))).map
        (fun t => (⟨t.role, resolveContent pb.args g t.content⟩ : ChatMsg)) = _
    rw [buildFilteredOnResolved, ← hcomm, List.map_map]
    rfl
  · show (⟨(contextLoop ((pb.messages.filter (applyFilter (some fC))).map
        (fun t => (t.role, resolveContent pb.args g t.content, t.placeholder)))).2,
      _⟩ : BfaResult) = _
    rw [bfaFilteredOnResolved]
    rw [show (((pb.messages.map (fun t => (t.role, resolveContent pb.args g t.content,
          t.placeholder, t.extra))).filter
        (fun e => fC e.1 (StoredContent.strC e.2.1) e.2.2.1 e.2.2.2)).map
          (fun e => (e.1, e.2.1, e.2.2.1)))
        = (pb.messages.filter (applyFilter (some fC))).map
          (fun t => (t.role, resolveContent pb.args g t.content, t.placeholder)) from by
      rw [← hcomm, List.map_map]
      rfl]

/-- C2 amended witness: two scalar turns and a predicate dropping the
string skip; the theorem applies, and code filtering equals
specification resolve-then-filter. -/
theorem c2_amended_filter_on_stored_content_witness :
    PromptBuilder.build
        ⟨[], [⟨.user, .strC "keep", none, []⟩, ⟨.user, .strC "skip", some "p", []⟩]⟩
        (some (fun _ c _ _ =>
          match c with
          | .strC s => decide (s ≠ "skip")
          | .builderC _ => true)) "   "
      = buildFilteredOnResolved
          ⟨[], [⟨.user, .strC "keep", none, []⟩, ⟨.user, .strC "skip", some "p", []⟩]⟩
          (fun r s ph m =>
            (fun _ c _ _ =>
              match c with
              | .strC s2 => decide (s2 ≠ "skip")
              | .builderC _ => true) r (StoredContent.strC s) ph m) "   "
    ∧ PromptBuilder.buildForAssistant
        ⟨[], [⟨.user, .strC "keep", none, []⟩, ⟨.user, .strC "skip", some "p", []⟩]⟩
        (some (fun _ c _ _ =>
          match c with
          | .strC s => decide (s ≠ "skip")
          | .builderC _ => true)) "   "
      = bfaFilteredOnResolved
          ⟨[], [⟨.user, .strC "keep", none, []⟩, ⟨.user, .strC "skip", some "p", []⟩]⟩
          (fun r s ph m =>
            (fun _ c _ _ =>
              match c with
              | .strC s2 => decide (s2 ≠ "skip")
              | .builderC _ => true) r (StoredContent.strC s) ph m) "   " :=
  c2_amended_filter_on_stored_content
    ⟨[], [⟨.user, .strC "keep", none, []⟩, ⟨.user, .strC "skip", some "p", []⟩]⟩
    (fun _ c _ _ =>
      match c with
      | .strC s => decide (s ≠ "skip")
      | .builderC _ => true) "   " (by rfl)

end AiPrompter
